import Mathlib

/-!
Verification of the geometry engine of `src/geojsonbldg.py`: winding
normalization (`ensure_ccw`), ear-clipping triangulation
(`triangulate_polygon`), height estimation (`_building_height_meters`),
solid extrusion (`extrude_footprint`) and mesh merging
(`geojson_to_extruded_mesh`).  Python float arithmetic is idealised as
exact rational arithmetic over `ℚ`.
-/

namespace Geojsonbldg

/-- Planar point in the XZ plane, as used throughout `geojsonbldg.py`. -/
abbrev Point : Type := ℚ × ℚ

/-- Triangle as an index triple into a vertex buffer. -/
abbrev Tri : Type := ℕ × ℕ × ℕ

/-- Vertex in 3D: `(x, y, z)`, with `y` the vertical axis. -/
abbrev Vertex : Type := ℚ × ℚ × ℚ

/-- Point lookup `points[i]`, with a default that is never reached for the
in-bounds indices the source uses. -/
def pt (points : List Point) (i : ℕ) : Point := points.getD i (0, 0)

/-- Signed accumulator of `ensure_ccw` in `geojsonbldg.py`: the sum over
consecutive (wrapping) pairs of `(x2 - x1) * (z2 + z1)`. -/
def shoelace (points : List Point) : ℚ :=
  ((List.range points.length).map (fun i =>
    let p1 := pt points i
    let p2 := pt points ((i + 1) % points.length)
    (p2.1 - p1.1) * (p2.2 + p1.2))).sum

/-- The function `ensure_ccw` of `geojsonbldg.py`: reverse the points when
the signed accumulator is positive (clockwise), else return them unchanged. -/
def ensure_ccw (points : List Point) : List Point :=
  if shoelace points > 0 then points.reverse else points

/-- The helper `area` of `triangulate_polygon`: doubled signed area of the
triangle `a b c`. -/
def area2 (a b c : Point) : ℚ :=
  (b.1 - a.1) * (c.2 - a.2) - (b.2 - a.2) * (c.1 - a.1)

/-- The helper `is_point_in_triangle` of `triangulate_polygon`: `p` counts
as inside exactly when the three sub-triangle area signs agree (so boundary
degeneracies count as inside, as in the source). -/
def is_point_in_triangle (p a b c : Point) : Bool :=
  let b1 := decide (area2 p a b < 0)
  let b2 := decide (area2 p b c < 0)
  let b3 := decide (area2 p c a < 0)
  (b1 == b2) && (b2 == b3)

/-- One candidate test of the ear scan at position `i` of the live index
list: `prev = indices[i - 1]` (Python negative indexing wraps to the last
element), `curr = indices[i]`, `next = indices[(i + 1) % len(indices)]`.
Returns the ear triple when the orientation test (`area > 0`) and the
containment test both pass. -/
def earAt (points : List Point) (indices : List ℕ) (i : ℕ) : Option Tri :=
  let m := indices.length
  let prev_i := indices.getD ((i + m - 1) % m) 0
  let curr_i := indices.getD i 0
  let next_i := indices.getD ((i + 1) % m) 0
  let a := pt points prev_i
  let b := pt points curr_i
  let c := pt points next_i
  if area2 a b c ≤ 0 then none
  else if indices.all (fun other =>
      (other == prev_i || other == curr_i || other == next_i) ||
      !(is_point_in_triangle (pt points other) a b c)) then
    some (prev_i, curr_i, next_i)
  else none

/-- The scan `for i in range(len(indices))` of `triangulate_polygon`:
try positions `i, i+1, ...` while the countdown `k` lasts, returning the
first accepted position together with its ear triple. -/
def scanEar (points : List Point) (indices : List ℕ) : ℕ → ℕ → Option (ℕ × Tri)
  | _, 0 => none
  | i, k + 1 =>
    match earAt points indices i with
    | some t => some (i, t)
    | none => scanEar points indices (i + 1) k

/-- One full scan over the live index list, from position 0. -/
def findEar (points : List Point) (indices : List ℕ) : Option (ℕ × Tri) :=
  scanEar points indices 0 indices.length

/-- The `while len(indices) > 2` loop of `triangulate_polygon`.  Each
iteration either accepts an ear (emitting its triangle and deleting the
current index from the live list) or exits (`break`, when a full scan found
no ear).  The fuel argument bounds the number of iterations; since every
iteration that continues removes one live index, a fuel of
`len(points)` is always sufficient (proved below). -/
def triLoop (points : List Point) : ℕ → List ℕ → List Tri
  | 0, _ => []
  | fuel + 1, indices =>
    if 2 < indices.length then
      match findEar points indices with
      | some (i, t) => t :: triLoop points fuel (indices.eraseIdx i)
      | none => []
    else []

/-- The function `triangulate_polygon` of `geojsonbldg.py`. -/
def triangulate_polygon (points : List Point) : List Tri :=
  triLoop points points.length (List.range points.length)

/-- Result of attempting Python `float(v)` on a property value: either it
parses to a number, or it raises (and the raise is caught by the source's
`try`/`except`). -/
inductive PropValue : Type
  | parses (q : ℚ)
  | fails
deriving DecidableEq

/-- Property map restricted to the two keys read by
`_building_height_meters`: `height` models the `"height"` entry and
`levels` the `"building:levels"` entry; `none` means the key is absent. -/
structure PropertyMap : Type where
  height : Option PropValue
  levels : Option PropValue
deriving DecidableEq

/-- The function `_building_height_meters` of `geojsonbldg.py`: take a
parsed `height` directly; else a parsed `building:levels` times `3.0`;
else the fallback default `10.0`. -/
def building_height_meters (props : PropertyMap) : ℚ :=
  match props.height with
  | some (PropValue.parses q) => q
  | _ =>
    match props.levels with
    | some (PropValue.parses q) => q * 3
    | _ => 10

/-- Closing-vertex removal at the top of `extrude_footprint`: drop the last
point when the list has more than 2 points and the first equals the last by
exact value equality. -/
def drop_closing (points_xz : List Point) : List Point :=
  if 2 < points_xz.length ∧ points_xz.head? = points_xz.getLast? then
    points_xz.dropLast
  else points_xz

/-- The function `extrude_footprint` of `geojsonbldg.py`: returns the pair
(vertices, triangles) of the extruded solid, and `([], [])` when fewer than
3 points remain after closing-vertex removal. -/
def extrude_footprint (points_xz : List Point) (height : ℚ) :
    List Vertex × List Tri :=
  let pts0 := drop_closing points_xz
  if pts0.length < 3 then ([], [])
  else
    let pts := ensure_ccw pts0
    let n := pts.length
    let bottom : List Vertex := pts.map (fun p => (p.1, 0, p.2))
    let top : List Vertex := pts.map (fun p => (p.1, height, p.2))
    let roof_tris := triangulate_polygon pts
    let roof : List Tri :=
      roof_tris.map (fun t => (t.1 + n, t.2.1 + n, t.2.2 + n))
    let floor_tris : List Tri := roof_tris.map (fun t => (t.2.2, t.2.1, t.1))
    let walls : List Tri := (List.range n).flatMap (fun i =>
      [(i, (i + 1) % n, (i + 1) % n + n), (i, (i + 1) % n + n, i + n)])
    (bottom ++ top, roof ++ floor_tris ++ walls)

/-- GeoJSON geometry object: its `"type"` tag and `"coordinates"` rings. -/
structure Geometry : Type where
  type : String
  coordinates : List (List (List ℚ))
deriving DecidableEq

/-- GeoJSON feature: the geometry (`none` when the `"geometry"` key is
absent, in which case the source's `.get("geometry", {})` yields an empty
dict whose type tag fails the `"Polygon"` check) and the property map. -/
structure Feature : Type where
  geometry : Option Geometry
  properties : PropertyMap
deriving DecidableEq

/-- Projection of one ring inside `geojson_to_extruded_mesh`: coordinates
with fewer than 2 entries are skipped; otherwise
`x = (point_lon - lon) * meters_per_lon` and
`z = (point_lat - lat) * 111320`.  The factor
`meters_per_lon = 111320 * cos(radians lat)` involves a transcendental
cosine, so the already-computed factor `mlon` is passed as a parameter. -/
def projected_footprint (lat lon mlon : ℚ) (ring : List (List ℚ)) :
    List Point :=
  ring.filterMap (fun coord =>
    match coord with
    | point_lon :: point_lat :: _ =>
        some ((point_lon - lon) * mlon, (point_lat - lat) * 111320)
    | _ => none)

/-- Per-feature body of the loop in `geojson_to_extruded_mesh`; each
`continue` path is the empty local mesh `([], [])`. -/
def feature_mesh (lat lon mlon : ℚ) (f : Feature) : List Vertex × List Tri :=
  match f.geometry with
  | none => ([], [])
  | some g =>
    if g.type = "Polygon" then
      match g.coordinates with
      | [] => ([], [])
      | ring0 :: _ =>
        let footprint := projected_footprint lat lon mlon ring0
        if footprint.length < 3 then ([], [])
        else extrude_footprint footprint (building_height_meters f.properties)
    else ([], [])

/-- Shift of a triangle's indices by a vertex offset, as in the merge loop
of `geojson_to_extruded_mesh`. -/
def shiftTri (off : ℕ) (t : Tri) : Tri := (t.1 + off, t.2.1 + off, t.2.2 + off)

/-- The merge loop of `geojson_to_extruded_mesh`, with explicit loop state
`(all_vertices, all_triangles, vertex_offset)`. -/
def assemble (lat lon mlon : ℚ) :
    List Feature → List Vertex → List Tri → ℕ → List Vertex × List Tri × ℕ
  | [], av, ats, off => (av, ats, off)
  | f :: rest, av, ats, off =>
    let vt := feature_mesh lat lon mlon f
    assemble lat lon mlon rest (av ++ vt.1) (ats ++ vt.2.map (shiftTri off))
      (off + vt.1.length)

/-- The function `geojson_to_extruded_mesh` of `geojsonbldg.py` (with the
projection factor `mlon` passed in, see `projected_footprint`). -/
def geojson_to_extruded_mesh (lat lon mlon : ℚ) (features : List Feature) :
    List Vertex × List Tri :=
  let r := assemble lat lon mlon features [] [] 0
  (r.1, r.2.1)

/-! ### Lemmas about the winding accumulator and `ensure_ccw` -/

/-- One wrapping term of the `ensure_ccw` accumulator. -/
def sTerm (l : List Point) (i : ℕ) : ℚ :=
  ((pt l ((i + 1) % l.length)).1 - (pt l i).1) *
    ((pt l ((i + 1) % l.length)).2 + (pt l i).2)

lemma shoelace_eq_sum (l : List Point) :
    shoelace l = ∑ i in Finset.range l.length, sTerm l i := rfl

lemma pt_eq_getElem {l : List Point} {i : ℕ} (h : i < l.length) :
    pt l i = l[i] := by
  simp [pt, List.getD_eq_getElem?_getD, List.getElem?_eq_getElem h]

lemma pt_reverse {l : List Point} {i : ℕ} (h : i < l.length) :
    pt l.reverse i = pt l (l.length - 1 - i) := by
  have h1 : i < l.reverse.length := by simpa using h
  rw [pt_eq_getElem h1, pt_eq_getElem (show l.length - 1 - i < l.length by omega)]
  simp [List.getElem_reverse]

lemma shoelace_reverse (l : List Point) : shoelace l.reverse = -shoelace l := by
  cases hn : l.length with
  | zero =>
    have : l = [] := List.length_eq_zero.mp hn
    subst this
    simp [shoelace]
  | succ m =>
    have hrev : l.reverse.length = m + 1 := by simp [hn]
    rw [shoelace_eq_sum, shoelace_eq_sum, hrev, hn,
      Finset.sum_range_succ, Finset.sum_range_succ]
    have hterm : ∀ i, i < m → sTerm l.reverse i = -(sTerm l (m - 1 - i)) := by
      intro i hi
      unfold sTerm
      rw [hrev, hn]
      have e1 : (i + 1) % (m + 1) = i + 1 := Nat.mod_eq_of_lt (by omega)
      have e2 : (m - 1 - i + 1) % (m + 1) = m - 1 - i + 1 :=
        Nat.mod_eq_of_lt (by omega)
      rw [e1, e2]
      rw [pt_reverse (show i + 1 < l.length by omega),
        pt_reverse (show i < l.length by omega), hn]
      have e3 : m + 1 - 1 - (i + 1) = m - 1 - i := by omega
      have e4 : m + 1 - 1 - i = m - 1 - i + 1 := by omega
      rw [e3, e4]
      ring
    have hlast : sTerm l.reverse m = -(sTerm l m) := by
      unfold sTerm
      rw [hrev, hn]
      have e1 : (m + 1) % (m + 1) = 0 := Nat.mod_self _
      rw [e1]
      rw [pt_reverse (show m < l.length by omega),
        pt_reverse (show 0 < l.length by omega), hn]
      have e3 : m + 1 - 1 - m = 0 := by omega
      have e4 : m + 1 - 1 - 0 = m := by omega
      rw [e3, e4]
      ring
    rw [hlast]
    have hmain : ∑ i in Finset.range m, sTerm l.reverse i =
        -∑ i in Finset.range m, sTerm l i := by
      rw [Finset.sum_congr rfl (fun i hi =>
        hterm i (Finset.mem_range.mp hi))]
      rw [← Finset.sum_range_reflect (fun j => sTerm l j) m]
      exact Finset.sum_neg_distrib
    rw [hmain]
    ring

lemma ensure_ccw_of_not_pos {l : List Point} (h : ¬ shoelace l > 0) :
    ensure_ccw l = l := by
  simp [ensure_ccw, h]

lemma ensure_ccw_idem (l : List Point) :
    ensure_ccw (ensure_ccw l) = ensure_ccw l := by
  by_cases h : shoelace l > 0
  · have h1 : ensure_ccw l = l.reverse := by simp [ensure_ccw, h]
    rw [h1]
    apply ensure_ccw_of_not_pos
    rw [shoelace_reverse]
    linarith
  · rw [ensure_ccw_of_not_pos h, ensure_ccw_of_not_pos h]

lemma ensure_ccw_reverse_of_neg {l : List Point} (h : shoelace l < 0) :
    ensure_ccw l.reverse = l := by
  rw [ensure_ccw, if_pos (by rw [shoelace_reverse]; linarith),
    List.reverse_reverse]

/-! ### Generic lemmas about the ear-clipping loop -/

lemma scanEar_some {points : List Point} {indices : List ℕ} :
    ∀ {k i j : ℕ} {t : Tri}, scanEar points indices i k = some (j, t) →
      i ≤ j ∧ j < i + k ∧ earAt points indices j = some t := by
  intro k
  induction k with
  | zero => intro i j t h; simp [scanEar] at h
  | succ k ih =>
    intro i j t h
    rw [scanEar] at h
    cases he : earAt points indices i with
    | some t0 =>
      rw [he] at h
      obtain ⟨rfl, rfl⟩ : i = j ∧ t0 = t := by simpa using h
      exact ⟨le_refl _, by omega, he⟩
    | none =>
      rw [he] at h
      obtain ⟨h1, h2, h3⟩ := ih h
      exact ⟨by omega, by omega, h3⟩

lemma findEar_some {points : List Point} {indices : List ℕ} {j : ℕ} {t : Tri}
    (h : findEar points indices = some (j, t)) :
    j < indices.length ∧ earAt points indices j = some t := by
  unfold findEar at h
  obtain ⟨h1, h2, h3⟩ := scanEar_some h
  exact ⟨by omega, h3⟩

lemma earAt_some {points : List Point} {indices : List ℕ} {i : ℕ} {t : Tri}
    (h : earAt points indices i = some t) :
    t.1 = indices.getD ((i + indices.length - 1) % indices.length) 0 ∧
    t.2.1 = indices.getD i 0 ∧
    t.2.2 = indices.getD ((i + 1) % indices.length) 0 := by
  simp only [earAt] at h
  split at h
  · exact absurd h (by simp)
  · split at h
    · injection h with h
      subst h
      exact ⟨rfl, rfl, rfl⟩
    · exact absurd h (by simp)

lemma triLoop_short {points : List Point} {indices : List ℕ}
    (h : ¬ 2 < indices.length) (fuel : ℕ) : triLoop points fuel indices = [] := by
  cases fuel with
  | zero => rfl
  | succ fuel => rw [triLoop, if_neg h]

lemma triLoop_length_le (points : List Point) :
    ∀ fuel indices, (triLoop points fuel indices).length ≤ indices.length - 2 := by
  intro fuel
  induction fuel with
  | zero => intro indices; simp [triLoop]
  | succ fuel ih =>
    intro indices
    rw [triLoop]
    by_cases hm : 2 < indices.length
    · rw [if_pos hm]
      cases hfe : findEar points indices with
      | some it =>
        obtain ⟨i, t⟩ := it
        have hi : i < indices.length := (findEar_some hfe).1
        have hlen : (indices.eraseIdx i).length = indices.length - 1 :=
          List.length_eraseIdx_of_lt hi
        have := ih (indices.eraseIdx i)
        simp only [List.length_cons]
        omega
      | none => simp
    · rw [if_neg hm]; simp

lemma triLoop_fuel_congr (points : List Point) :
    ∀ fuel1 fuel2 indices, indices.length ≤ fuel1 + 2 →
      indices.length ≤ fuel2 + 2 →
      triLoop points fuel1 indices = triLoop points fuel2 indices := by
  intro fuel1
  induction fuel1 with
  | zero =>
    intro fuel2 indices h1 h2
    rw [triLoop_short (by omega) 0, triLoop_short (by omega) fuel2]
  | succ fuel1 ih =>
    intro fuel2 indices h1 h2
    by_cases hm : 2 < indices.length
    · cases fuel2 with
      | zero => omega
      | succ fuel2 =>
        rw [triLoop, triLoop, if_pos hm, if_pos hm]
        cases hfe : findEar points indices with
        | some it =>
          obtain ⟨i, t⟩ := it
          have hi : i < indices.length := (findEar_some hfe).1
          have hlen : (indices.eraseIdx i).length = indices.length - 1 :=
            List.length_eraseIdx_of_lt hi
          exact congrArg (t :: ·)
            (ih fuel2 (indices.eraseIdx i) (by omega) (by omega))
        | none => rfl
    · rw [triLoop_short hm _, triLoop_short hm _]

/-! ### Index-validity invariant of the ear-clipping loop -/

lemma getD_nat_eq_getElem {l : List ℕ} {i : ℕ} (h : i < l.length) :
    l.getD i 0 = l[i] := by
  simp [List.getD_eq_getElem?_getD, List.getElem?_eq_getElem h]

lemma nodup_getD_ne {l : List ℕ} (hnd : l.Nodup) {a b : ℕ} (ha : a < l.length)
    (hb : b < l.length) (hab : a ≠ b) : l.getD a 0 ≠ l.getD b 0 := by
  rw [getD_nat_eq_getElem ha, getD_nat_eq_getElem hb]
  intro h
  exact hab ((hnd.getElem_inj_iff).mp h)

lemma earPos_prev {i m : ℕ} (hi : i < m) :
    (i + m - 1) % m = if i = 0 then m - 1 else i - 1 := by
  rcases Nat.eq_zero_or_pos i with rfl | hpos
  · rw [if_pos rfl, Nat.zero_add]
    exact Nat.mod_eq_of_lt (by omega)
  · rw [if_neg (by omega)]
    have e : i + m - 1 = (i - 1) + m := by omega
    rw [e, Nat.add_mod_right]
    exact Nat.mod_eq_of_lt (by omega)

lemma earPos_next {i m : ℕ} (hi : i < m) :
    (i + 1) % m = if i + 1 = m then 0 else i + 1 := by
  by_cases h : i + 1 = m
  · rw [if_pos h, h, Nat.mod_self]
  · rw [if_neg h]
    exact Nat.mod_eq_of_lt (by omega)

lemma earAt_distinct_bounds {N : ℕ} {points : List Point} {indices : List ℕ}
    {i : ℕ} {t : Tri} (hnd : indices.Nodup) (hb : ∀ x ∈ indices, x < N)
    (hm : 2 < indices.length) (hi : i < indices.length)
    (h : earAt points indices i = some t) :
    (t.1 ≠ t.2.1 ∧ t.1 ≠ t.2.2 ∧ t.2.1 ≠ t.2.2) ∧
      t.1 < N ∧ t.2.1 < N ∧ t.2.2 < N := by
  obtain ⟨e1, e2, e3⟩ := earAt_some h
  set m := indices.length with hmdef
  have hp1 : (i + m - 1) % m < m := Nat.mod_lt _ (by omega)
  have hp3 : (i + 1) % m < m := Nat.mod_lt _ (by omega)
  have hd1 : (i + m - 1) % m ≠ i := by
    rw [earPos_prev hi]
    split <;> omega
  have hd3 : (i + 1) % m ≠ i := by
    rw [earPos_next hi]
    split <;> omega
  have hd13 : (i + m - 1) % m ≠ (i + 1) % m := by
    rw [earPos_prev hi, earPos_next hi]
    split <;> split <;> omega
  have hbd : ∀ p, p < m → indices.getD p 0 < N := by
    intro p hp
    rw [getD_nat_eq_getElem hp]
    exact hb _ (indices.getElem_mem hp)
  refine ⟨⟨?_, ?_, ?_⟩, ?_, ?_, ?_⟩
  · rw [e1, e2]; exact nodup_getD_ne hnd hp1 hi hd1
  · rw [e1, e3]; exact nodup_getD_ne hnd hp1 hp3 hd13
  · rw [e2, e3]
    exact nodup_getD_ne hnd hi hp3 (fun hh => hd3 hh.symm)
  · rw [e1]; exact hbd _ hp1
  · rw [e2]; exact hbd _ hi
  · rw [e3]; exact hbd _ hp3

lemma triLoop_mem {points : List Point} {N : ℕ} :
    ∀ fuel (indices : List ℕ), indices.Nodup → (∀ x ∈ indices, x < N) →
      ∀ t ∈ triLoop points fuel indices,
        (t.1 ≠ t.2.1 ∧ t.1 ≠ t.2.2 ∧ t.2.1 ≠ t.2.2) ∧
          t.1 < N ∧ t.2.1 < N ∧ t.2.2 < N := by
  intro fuel
  induction fuel with
  | zero => intro indices _ _ t ht; simp [triLoop] at ht
  | succ fuel ih =>
    intro indices hnd hb t ht
    rw [triLoop] at ht
    by_cases hm : 2 < indices.length
    · rw [if_pos hm] at ht
      cases hfe : findEar points indices with
      | some it =>
        obtain ⟨i, t0⟩ := it
        rw [hfe] at ht
        rcases List.mem_cons.mp ht with rfl | ht2
        · exact earAt_distinct_bounds hnd hb hm (findEar_some hfe).1
            (findEar_some hfe).2
        · exact ih (indices.eraseIdx i)
            ((List.eraseIdx_sublist indices i).nodup hnd)
            (fun x hx => hb x ((List.eraseIdx_sublist indices i).mem hx))
            t ht2
      | none => rw [hfe] at ht; simp at ht
    · rw [if_neg hm] at ht; simp at ht

lemma triangulate_mem {points : List Point} {t : Tri}
    (ht : t ∈ triangulate_polygon points) :
    (t.1 ≠ t.2.1 ∧ t.1 ≠ t.2.2 ∧ t.2.1 ≠ t.2.2) ∧
      t.1 < points.length ∧ t.2.1 < points.length ∧ t.2.2 < points.length := by
  refine triLoop_mem points.length (List.range points.length)
    (List.nodup_range _) (fun x hx => List.mem_range.mp hx) t ht

/-! ### Ear clipping on strictly convex polygons: the fan characterisation -/

/-- Strict convex position in counter-clockwise order: every ordered triple
of vertices is strictly positively oriented.  This is the standard
characterisation of the vertex sequence of a simple convex polygon with no
three collinear vertices, listed counter-clockwise. -/
def StrictlyConvex (points : List Point) : Prop :=
  ∀ k, k < points.length → ∀ j, j < k → ∀ i, i < j →
    0 < area2 (pt points i) (pt points j) (pt points k)

lemma area2_rot (a b c : Point) : area2 a b c = area2 b c a := by
  unfold area2; ring

lemma area2_swap (a b c : Point) : area2 a b c = -area2 a c b := by
  unfold area2; ring

lemma getD_range' {j m k : ℕ} (h : k < m) :
    (List.range' j m).getD k 0 = j + k := by
  rw [getD_nat_eq_getElem (by simpa using h)]
  simp

lemma triLoop_step {points : List Point} {indices : List ℕ} {i : ℕ} {t : Tri}
    (fuel : ℕ) (hm : 2 < indices.length)
    (h : findEar points indices = some (i, t)) :
    triLoop points (fuel + 1) indices =
      t :: triLoop points fuel (indices.eraseIdx i) := by
  rw [triLoop, if_pos hm, h]

lemma triLoop_stuck {points : List Point} {indices : List ℕ}
    (fuel : ℕ) (hm : 2 < indices.length)
    (h : findEar points indices = none) :
    triLoop points (fuel + 1) indices = [] := by
  rw [triLoop, if_pos hm, h]

lemma earAt_fan {points : List Point} (H : StrictlyConvex points) {j m : ℕ}
    (hm : 3 ≤ m) (hn : j + m = points.length) :
    earAt points (List.range' j m) 0 = some (j + (m - 1), j, j + 1) := by
  have hlen : (List.range' j m).length = m := List.length_range' _ _ _
  have hp1 : (0 + m - 1) % m = m - 1 := by
    rw [Nat.zero_add]
    exact Nat.mod_eq_of_lt (by omega)
  have hp3 : (0 + 1) % m = 1 := Nat.mod_eq_of_lt (by omega)
  have hg1 : (List.range' j m).getD (m - 1) 0 = j + (m - 1) :=
    getD_range' (by omega)
  have hg2 : (List.range' j m).getD 0 0 = j := getD_range' (by omega)
  have hg3 : (List.range' j m).getD 1 0 = j + 1 := getD_range' (by omega)
  have harea : 0 < area2 (pt points (j + (m - 1))) (pt points j)
      (pt points (j + 1)) := by
    rw [area2_rot]
    exact H (j + (m - 1)) (by omega) (j + 1) (by omega) j (by omega)
  have hall : ∀ o ∈ List.range' j m,
      ((o == j + (m - 1) || o == j || o == j + 1) ||
        !(is_point_in_triangle (pt points o) (pt points (j + (m - 1)))
          (pt points j) (pt points (j + 1)))) = true := by
    intro o ho
    obtain ⟨ho1, ho2⟩ := List.mem_range'_1.mp ho
    by_cases hcase : o = j + (m - 1) ∨ o = j ∨ o = j + 1
    · rcases hcase with rfl | rfl | rfl <;> simp
    · push_neg at hcase
      obtain ⟨hc1, hc2, hc3⟩ := hcase
      have hbetween : j + 1 < o ∧ o < j + (m - 1) := by omega
      have hb2 : 0 < area2 (pt points o) (pt points j) (pt points (j + 1)) := by
        rw [area2_rot]
        exact H o (by omega) (j + 1) (by omega) j (by omega)
      have hb3 : area2 (pt points o) (pt points (j + 1))
          (pt points (j + (m - 1))) < 0 := by
        rw [area2_rot, area2_swap]
        have := H (j + (m - 1)) (by omega) o (by omega) (j + 1) (by omega)
        linarith
      simp only [is_point_in_triangle, Bool.or_eq_true]
      right
      rw [Bool.not_eq_true']
      rw [decide_eq_false (by linarith : ¬ area2 (pt points o) (pt points j)
        (pt points (j + 1)) < 0)]
      rw [decide_eq_true hb3]
      simp
  simp only [earAt]
  rw [hlen, hp1, hp3, hg1, hg2, hg3]
  rw [if_neg (by linarith), if_pos (List.all_eq_true.mpr hall)]

lemma findEar_fan {points : List Point} (H : StrictlyConvex points) {j m : ℕ}
    (hm : 3 ≤ m) (hn : j + m = points.length) :
    findEar points (List.range' j m) = some (0, (j + (m - 1), j, j + 1)) := by
  obtain ⟨m1, rfl⟩ : ∃ m1, m = m1 + 1 := ⟨m - 1, by omega⟩
  unfold findEar
  rw [List.length_range']
  rw [scanEar, earAt_fan H hm hn]

lemma eraseIdx_zero_range' {j m : ℕ} (h : 1 ≤ m) :
    (List.range' j m).eraseIdx 0 = List.range' (j + 1) (m - 1) := by
  obtain ⟨m1, rfl⟩ : ∃ m1, m = m1 + 1 := ⟨m - 1, by omega⟩
  rw [List.range'_succ]
  simp

lemma triLoop_fan {points : List Point} (H : StrictlyConvex points) :
    ∀ c j fuel, j + (c + 3) = points.length → c + 1 ≤ fuel →
      triLoop points fuel (List.range' j (c + 3)) =
        (List.range (c + 1)).map
          (fun k => (points.length - 1, j + k, j + k + 1)) := by
  intro c
  induction c with
  | zero =>
    intro j fuel hn hf
    obtain ⟨f, rfl⟩ : ∃ f, fuel = f + 1 := ⟨fuel - 1, by omega⟩
    rw [triLoop_step f (by simp) (findEar_fan H (by omega) hn)]
    rw [eraseIdx_zero_range' (by omega)]
    rw [triLoop_short (by simp) f]
    rw [show j + (0 + 3 - 1) = points.length - 1 by omega]
    rw [show List.range 1 = [0] from rfl]
    simp
  | succ c ih =>
    intro j fuel hn hf
    obtain ⟨f, rfl⟩ : ∃ f, fuel = f + 1 := ⟨fuel - 1, by omega⟩
    rw [triLoop_step f (by simp) (findEar_fan H (by omega) hn)]
    rw [eraseIdx_zero_range' (by omega)]
    rw [show c + 1 + 3 - 1 = c + 3 by omega]
    rw [ih (j + 1) f (by omega) (by omega)]
    rw [List.range_succ_eq_map (c + 1), List.map_cons, List.map_map]
    rw [show j + (c + 3) = points.length - 1 by omega]
    simp only [Nat.add_zero]
    refine congrArg (_ :: ·) (List.map_congr_left ?_)
    intro k hk
    simp only [Function.comp_apply, Nat.succ_eq_add_one]
    rw [show j + (k + 1) = j + 1 + k by omega]

lemma triangulate_fan {points : List Point} (H : StrictlyConvex points)
    (h3 : 3 ≤ points.length) :
    triangulate_polygon points =
      (List.range (points.length - 2)).map
        (fun k => (points.length - 1, k, k + 1)) := by
  have h := triLoop_fan H (points.length - 3) 0 points.length
    (by omega) (by omega)
  rw [show points.length - 3 + 3 = points.length by omega] at h
  rw [show points.length - 3 + 1 = points.length - 2 by omega] at h
  unfold triangulate_polygon
  rw [List.range_eq_range']
  simpa using h

/-! ### Area bookkeeping for the fan -/

/-- Cross product of two position vectors; building block of the shoelace
formula. -/
def cross (a b : Point) : ℚ := a.1 * b.2 - b.1 * a.2

lemma area2_eq_cross (a b c : Point) :
    area2 a b c = cross a b + cross b c + cross c a := by
  unfold area2 cross; ring

/-- Unsigned area of one emitted triangle, measured against the original
point sequence. -/
def triAreaAbs (points : List Point) (t : Tri) : ℚ :=
  |area2 (pt points t.1) (pt points t.2.1) (pt points t.2.2)| / 2

/-- Unsigned area of the polygon, via the winding accumulator (whose
absolute value is twice the enclosed area). -/
def polyAreaAbs (points : List Point) : ℚ := |shoelace points| / 2

lemma fanSum (P : ℕ → Point) (q : Point) :
    ∀ c : ℕ, ∑ k in Finset.range (c + 1), area2 (P k) (P (k + 1)) q =
      (∑ k in Finset.range (c + 1), cross (P k) (P (k + 1))) +
        cross (P (c + 1)) q + cross q (P 0) := by
  intro c
  induction c with
  | zero => simp [area2_eq_cross]
  | succ c ih =>
    rw [Finset.sum_range_succ, ih,
      Finset.sum_range_succ (fun k => cross (P k) (P (k + 1))) (c + 1)]
    simp only [area2, cross]
    ring

lemma shoelace_cross {l : List Point} {m : ℕ} (hl : l.length = m + 1) :
    shoelace l = -((∑ i in Finset.range m, cross (pt l i) (pt l (i + 1))) +
      cross (pt l m) (pt l 0)) := by
  rw [shoelace_eq_sum, hl, Finset.sum_range_succ]
  have hterm : ∀ i ∈ Finset.range m, sTerm l i =
      -(cross (pt l i) (pt l (i + 1))) +
        ((pt l (i + 1)).1 * (pt l (i + 1)).2 - (pt l i).1 * (pt l i).2) := by
    intro i hi
    have him := Finset.mem_range.mp hi
    unfold sTerm cross
    rw [hl, Nat.mod_eq_of_lt (by omega)]
    ring
  have hwrap : sTerm l m = -(cross (pt l m) (pt l 0)) +
      ((pt l 0).1 * (pt l 0).2 - (pt l m).1 * (pt l m).2) := by
    unfold sTerm cross
    rw [hl, Nat.mod_self]
    ring
  rw [Finset.sum_congr rfl hterm, hwrap, Finset.sum_add_distrib,
    Finset.sum_range_sub (fun i => (pt l i).1 * (pt l i).2),
    Finset.sum_neg_distrib]
  ring

lemma triangulate_convex_area {points : List Point} (H : StrictlyConvex points)
    (h3 : 3 ≤ points.length) :
    ((triangulate_polygon points).map (triAreaAbs points)).sum =
      polyAreaAbs points := by
  obtain ⟨c, hc⟩ : ∃ c, points.length = c + 3 := ⟨points.length - 3, by omega⟩
  rw [triangulate_fan H h3, List.map_map]
  have hlist : ∀ (f : ℕ → ℚ) m,
      ((List.range m).map f).sum = ∑ i in Finset.range m, f i := fun _ _ => rfl
  rw [hlist]
  have habs : ∀ k ∈ Finset.range (points.length - 2),
      (triAreaAbs points ∘ fun k => (points.length - 1, k, k + 1)) k =
        area2 (pt points k) (pt points (k + 1))
          (pt points (points.length - 1)) / 2 := by
    intro k hk
    have hkm := Finset.mem_range.mp hk
    simp only [Function.comp_apply, triAreaAbs]
    rw [area2_rot]
    rw [abs_of_pos (H (points.length - 1) (by omega) (k + 1) (by omega) k
      (by omega))]
  rw [Finset.sum_congr rfl habs, ← Finset.sum_div]
  rw [show points.length - 2 = c + 1 by omega]
  have hS : 0 < ∑ k in Finset.range (c + 1),
      area2 (pt points k) (pt points (k + 1))
        (pt points (points.length - 1)) := by
    refine Finset.sum_pos (fun k hk => ?_) (by simp)
    have hkm := Finset.mem_range.mp hk
    exact H (points.length - 1) (by omega) (k + 1) (by omega) k (by omega)
  have hfan := fanSum (fun i => pt points i) (pt points (points.length - 1)) c
  have htot : (∑ k in Finset.range (c + 1),
        cross (pt points k) (pt points (k + 1))) +
      cross (pt points (c + 1)) (pt points (points.length - 1)) +
      cross (pt points (points.length - 1)) (pt points 0) =
      -shoelace points := by
    rw [shoelace_cross (l := points) (m := c + 2) (by omega)]
    rw [Finset.sum_range_succ
      (fun i => cross (pt points i) (pt points (i + 1))) (c + 1)]
    rw [show points.length - 1 = c + 2 by omega]
    ring
  have hneg : shoelace points < 0 := by
    have := hS
    rw [hfan, htot] at this
    linarith
  rw [hfan, htot]
  unfold polyAreaAbs
  rw [abs_of_neg hneg]

/-! ### Lemmas about the extruder -/

lemma length_ensure_ccw (l : List Point) : (ensure_ccw l).length = l.length := by
  unfold ensure_ccw
  split <;> simp

lemma drop_closing_eq {pts : List Point} (hdup : pts.head? ≠ pts.getLast?) :
    drop_closing pts = pts := by
  unfold drop_closing
  rw [if_neg]
  exact fun hc => hdup hc.2

lemma extrude_unfold {pts : List Point} {h : ℚ}
    (hlen : ¬ (drop_closing pts).length < 3) :
    extrude_footprint pts h =
      ((ensure_ccw (drop_closing pts)).map (fun p => (p.1, (0 : ℚ), p.2)) ++
        (ensure_ccw (drop_closing pts)).map (fun p => (p.1, h, p.2)),
       (triangulate_polygon (ensure_ccw (drop_closing pts))).map
          (fun t => (t.1 + (ensure_ccw (drop_closing pts)).length,
                     t.2.1 + (ensure_ccw (drop_closing pts)).length,
                     t.2.2 + (ensure_ccw (drop_closing pts)).length)) ++
        (triangulate_polygon (ensure_ccw (drop_closing pts))).map
          (fun t => (t.2.2, t.2.1, t.1)) ++
        (List.range (ensure_ccw (drop_closing pts)).length).flatMap (fun i =>
          [(i, (i + 1) % (ensure_ccw (drop_closing pts)).length,
            (i + 1) % (ensure_ccw (drop_closing pts)).length +
              (ensure_ccw (drop_closing pts)).length),
           (i, (i + 1) % (ensure_ccw (drop_closing pts)).length +
              (ensure_ccw (drop_closing pts)).length,
            i + (ensure_ccw (drop_closing pts)).length)])) := by
  simp only [extrude_footprint, if_neg hlen]

lemma length_flatMap_pair {α β : Type} (l : List α) (f g : α → β) :
    (l.flatMap (fun a => [f a, g a])).length = 2 * l.length := by
  induction l with
  | nil => simp
  | cons a l ih =>
    simp only [List.flatMap_cons, List.length_append, ih, List.length_cons,
      List.length_nil]
    omega

lemma extrude_normalized {pts : List Point} {h : ℚ} (h3 : 3 ≤ pts.length)
    (hdup : pts.head? ≠ pts.getLast?) (hccw : ¬ shoelace pts > 0) :
    (extrude_footprint pts h).1 =
      pts.map (fun p => (p.1, (0 : ℚ), p.2)) ++
        pts.map (fun p => (p.1, h, p.2)) ∧
    (extrude_footprint pts h).2.length =
      2 * (triangulate_polygon pts).length + 2 * pts.length := by
  have hd := drop_closing_eq hdup
  have he : ensure_ccw (drop_closing pts) = pts := by
    rw [hd, ensure_ccw_of_not_pos hccw]
  have hnl : ¬ (drop_closing pts).length < 3 := by rw [hd]; omega
  rw [extrude_unfold hnl, he]
  refine ⟨rfl, ?_⟩
  simp only [List.length_append, List.length_map, length_flatMap_pair,
    List.length_range]
  omega

lemma mem_walls {n : ℕ} {t : Tri} (hn : 3 ≤ n)
    (ht : t ∈ (List.range n).flatMap (fun i =>
      [(i, (i + 1) % n, (i + 1) % n + n), (i, (i + 1) % n + n, i + n)])) :
    (t.1 ≠ t.2.1 ∧ t.1 ≠ t.2.2 ∧ t.2.1 ≠ t.2.2) ∧
      t.1 < 2 * n ∧ t.2.1 < 2 * n ∧ t.2.2 < 2 * n := by
  rw [List.mem_flatMap] at ht
  obtain ⟨i, hi, hmem⟩ := ht
  have hin : i < n := List.mem_range.mp hi
  have hmod : (i + 1) % n < n := Nat.mod_lt _ (by omega)
  have hne : (i + 1) % n ≠ i := by
    rw [earPos_next hin]
    split <;> omega
  simp only [List.mem_cons, List.mem_singleton] at hmem
  generalize hr : (i + 1) % n = r at hmod hne hmem
  rcases hmem with rfl | rfl | hmem
  · dsimp only
    refine ⟨⟨?_, ?_, ?_⟩, ?_, ?_, ?_⟩ <;> omega
  · dsimp only
    refine ⟨⟨?_, ?_, ?_⟩, ?_, ?_, ?_⟩ <;> omega
  · exact absurd hmem (List.not_mem_nil t)

lemma extrude_mem {pts : List Point} {h : ℚ} {t : Tri}
    (ht : t ∈ (extrude_footprint pts h).2) :
    (t.1 ≠ t.2.1 ∧ t.1 ≠ t.2.2 ∧ t.2.1 ≠ t.2.2) ∧
      t.1 < (extrude_footprint pts h).1.length ∧
      t.2.1 < (extrude_footprint pts h).1.length ∧
      t.2.2 < (extrude_footprint pts h).1.length := by
  by_cases hlen : (drop_closing pts).length < 3
  · rw [show extrude_footprint pts h = ([], []) by
      simp only [extrude_footprint, if_pos hlen]] at ht
    exact absurd ht (List.not_mem_nil t)
  · rw [extrude_unfold hlen] at ht ⊢
    set q := ensure_ccw (drop_closing pts) with hq
    have hqlen : 3 ≤ q.length := by
      rw [hq, length_ensure_ccw]
      omega
    simp only [List.length_append, List.length_map]
    have h2n : q.length + q.length = 2 * q.length := by omega
    rw [h2n]
    simp only [List.mem_append] at ht
    rcases ht with (ht | ht) | ht
    · rw [List.mem_map] at ht
      obtain ⟨t0, ht0, rfl⟩ := ht
      obtain ⟨⟨d1, d2, d3⟩, b1, b2, b3⟩ := triangulate_mem ht0
      dsimp only
      refine ⟨⟨?_, ?_, ?_⟩, ?_, ?_, ?_⟩ <;> omega
    · rw [List.mem_map] at ht
      obtain ⟨t0, ht0, rfl⟩ := ht
      obtain ⟨⟨d1, d2, d3⟩, b1, b2, b3⟩ := triangulate_mem ht0
      dsimp only
      refine ⟨⟨?_, ?_, ?_⟩, ?_, ?_, ?_⟩ <;> omega
    · exact mem_walls hqlen ht

/-! ### Lemmas about the mesh assembler -/

/-- Specification-side description of the merge from §3/§4.5 of the spec:
each local mesh's triangles are shifted by the sum of the vertex counts of
all previously merged local meshes. -/
def shiftedJoin (off : ℕ) : List (List Vertex × List Tri) → List Tri
  | [] => []
  | m :: ms => m.2.map (shiftTri off) ++ shiftedJoin (off + m.1.length) ms

lemma assemble_eq (lat lon mlon : ℚ) :
    ∀ (feats : List Feature) (av : List Vertex) (ats : List Tri) (off : ℕ),
      assemble lat lon mlon feats av ats off =
        (av ++ (feats.map (fun f => (feature_mesh lat lon mlon f).1)).flatten,
         ats ++ shiftedJoin off (feats.map (feature_mesh lat lon mlon)),
         off + (feats.map
            (fun f => (feature_mesh lat lon mlon f).1.length)).sum) := by
  intro feats
  induction feats with
  | nil => intro av ats off; simp [assemble, shiftedJoin]
  | cons f rest ih =>
    intro av ats off
    simp only [assemble, List.map_cons, List.flatten, shiftedJoin, List.sum_cons]
    rw [ih]
    refine Prod.ext ?_ (Prod.ext ?_ ?_) <;>
      simp [List.append_assoc, Nat.add_assoc]

lemma feature_mesh_mem (lat lon mlon : ℚ) (f : Feature) :
    ∀ t ∈ (feature_mesh lat lon mlon f).2,
      (t.1 ≠ t.2.1 ∧ t.1 ≠ t.2.2 ∧ t.2.1 ≠ t.2.2) ∧
        t.1 < (feature_mesh lat lon mlon f).1.length ∧
        t.2.1 < (feature_mesh lat lon mlon f).1.length ∧
        t.2.2 < (feature_mesh lat lon mlon f).1.length := by
  obtain ⟨geo, props⟩ := f
  cases geo with
  | none => intro t ht; simp [feature_mesh] at ht
  | some g =>
    obtain ⟨gtype, gcoords⟩ := g
    by_cases htype : gtype = "Polygon"
    · cases gcoords with
      | nil => intro t ht; simp [feature_mesh, htype] at ht
      | cons ring0 rs =>
        by_cases hfp : (projected_footprint lat lon mlon ring0).length < 3
        · intro t ht; simp [feature_mesh, htype, hfp] at ht
        · intro t ht
          have hmeq : feature_mesh lat lon mlon
              ⟨some ⟨gtype, ring0 :: rs⟩, props⟩ =
              extrude_footprint (projected_footprint lat lon mlon ring0)
                (building_height_meters props) := by
            simp [feature_mesh, htype, hfp]
          rw [hmeq] at ht ⊢
          exact extrude_mem ht
    · intro t ht; simp [feature_mesh, htype] at ht

lemma assemble_mem (lat lon mlon : ℚ) :
    ∀ (feats : List Feature) (av : List Vertex) (ats : List Tri) (off : ℕ),
      off = av.length →
      (∀ t ∈ ats, (t.1 ≠ t.2.1 ∧ t.1 ≠ t.2.2 ∧ t.2.1 ≠ t.2.2) ∧
        t.1 < av.length ∧ t.2.1 < av.length ∧ t.2.2 < av.length) →
      ∀ t ∈ (assemble lat lon mlon feats av ats off).2.1,
        (t.1 ≠ t.2.1 ∧ t.1 ≠ t.2.2 ∧ t.2.1 ≠ t.2.2) ∧
          t.1 < (assemble lat lon mlon feats av ats off).1.length ∧
          t.2.1 < (assemble lat lon mlon feats av ats off).1.length ∧
          t.2.2 < (assemble lat lon mlon feats av ats off).1.length := by
  intro feats
  induction feats with
  | nil =>
    intro av ats off hoff hinv t ht
    exact hinv t ht
  | cons f rest ih =>
    intro av ats off hoff hinv t ht
    simp only [assemble] at ht ⊢
    refine ih (av ++ (feature_mesh lat lon mlon f).1)
      (ats ++ ((feature_mesh lat lon mlon f).2).map
        (shiftTri off))
      (off + (feature_mesh lat lon mlon f).1.length)
      (by simp [hoff]) ?_ t ht
    intro t0 ht0
    rw [List.mem_append] at ht0
    rcases ht0 with ht0 | ht0
    · obtain ⟨hd, hb1, hb2, hb3⟩ := hinv t0 ht0
      exact ⟨hd, by simp; omega, by simp; omega, by simp; omega⟩
    · rw [List.mem_map] at ht0
      obtain ⟨t1, ht1, rfl⟩ := ht0
      obtain ⟨⟨d1, d2, d3⟩, b1, b2, b3⟩ := feature_mesh_mem lat lon mlon f t1 ht1
      subst hoff
      refine ⟨⟨?_, ?_, ?_⟩, ?_, ?_, ?_⟩ <;>
        simp [shiftTri] <;> omega

/-! ### Skip behaviour of the assembler -/

lemma feature_mesh_skip {lat lon mlon : ℚ} {f : Feature}
    (h : f.geometry = none ∨ ∃ g, f.geometry = some g ∧
      (g.type ≠ "Polygon" ∨ g.coordinates = [] ∨
        ∃ r rs, g.coordinates = r :: rs ∧
          ((projected_footprint lat lon mlon r).length < 3 ∨
           (drop_closing (projected_footprint lat lon mlon r)).length < 3))) :
    feature_mesh lat lon mlon f = ([], []) := by
  obtain ⟨geo, props⟩ := f
  rcases h with hgeo | ⟨g, hg, hcase⟩
  · dsimp only at hgeo
    subst hgeo
    rfl
  · dsimp only at hg
    subst hg
    obtain ⟨gtype, gcoords⟩ := g
    rcases hcase with htype | hcoords | ⟨r, rs, hcr, hfp⟩
    · dsimp only at htype
      simp [feature_mesh, htype]
    · dsimp only at hcoords
      subst hcoords
      by_cases ht : gtype = "Polygon" <;> simp [feature_mesh, ht]
    · dsimp only at hcr
      subst hcr
      by_cases ht : gtype = "Polygon"
      · by_cases hfp3 : (projected_footprint lat lon mlon r).length < 3
        · simp [feature_mesh, ht, hfp3]
        · rcases hfp with hfp | hfp
          · exact absurd hfp hfp3
          · have hex : extrude_footprint (projected_footprint lat lon mlon r)
                (building_height_meters props) = ([], []) := by
              simp only [extrude_footprint, if_pos hfp]
            simp [feature_mesh, ht, hfp3, hex]
      · simp [feature_mesh, ht]

lemma assemble_skip {lat lon mlon : ℚ} {f : Feature}
    (h : feature_mesh lat lon mlon f = ([], []))
    (rest : List Feature) (av : List Vertex) (ats : List Tri) (off : ℕ) :
    assemble lat lon mlon (f :: rest) av ats off =
      assemble lat lon mlon rest av ats off := by
  simp [assemble, h]

/-! ### Decidability of strict convexity, and concrete inputs -/

instance StrictlyConvex.decidable (points : List Point) :
    Decidable (StrictlyConvex points) := by
  unfold StrictlyConvex
  infer_instance

/-- The unit square footprint of §8 of the spec. -/
def unitSquare : List Point := [(0, 0), (1, 0), (1, 1), (0, 1)]

/-- Three collinear points: a degenerate input on which no ear exists. -/
def collinear3 : List Point := [(0, 0), (1, 0), (2, 0)]

/-- A self-intersecting (bowtie) quadrilateral: ear clipping emits one
triangle and then stops early with a partial result. -/
def bowtie : List Point := [(0, 0), (2, 1), (2, 0), (0, 1)]

/-- A feature whose ring projects (with origin 0/0 and `mlon = 1`) to the
unit square, with property `height = 5`. -/
def sqFeature : Feature :=
  ⟨some ⟨"Polygon", [[[0, 0], [1, 0], [1, (1 : ℚ) / 111320],
      [0, (1 : ℚ) / 111320]]]⟩,
   ⟨some (PropValue.parses 5), none⟩⟩

/-- A degenerate feature: its ring has 3 coordinate pairs but the first
equals the last, so closing-vertex removal leaves only 2 points. -/
def degFeature : Feature :=
  ⟨some ⟨"Polygon", [[[0, 0], [1, (1 : ℚ) / 111320], [0, 0]]]⟩,
   ⟨none, none⟩⟩

/-- A Polygon feature with two rings (an outer unit-square ring and an
inner "hole" ring) — not a single polygonal ring. -/
def twoRingFeature : Feature :=
  ⟨some ⟨"Polygon",
     [[[0, 0], [1, 0], [1, (1 : ℚ) / 111320], [0, (1 : ℚ) / 111320]],
      [[1 / 4, (1 : ℚ) / 445280], [1 / 2, (1 : ℚ) / 445280],
       [1 / 2, (1 : ℚ) / 222640]]]⟩,
   ⟨none, none⟩⟩

/-! ### Claim theorems -/

/-- C1: `_building_height_meters` applies its tiers in order: a parsed
`height` value is returned directly; otherwise a parsed `building:levels`
value is returned times 3.0; otherwise the default 10.0.  In particular it
returns 10.0 on the empty map, 45.0 for levels 15, and 12.5 for height
parsed from "12.5". -/
theorem C1_height_tiers :
    (∀ (props : PropertyMap) (q : ℚ),
      props.height = some (PropValue.parses q) →
        building_height_meters props = q) ∧
    (∀ (props : PropertyMap) (q : ℚ),
      (∀ r, props.height ≠ some (PropValue.parses r)) →
      props.levels = some (PropValue.parses q) →
        building_height_meters props = q * 3) ∧
    (∀ props : PropertyMap,
      (∀ r, props.height ≠ some (PropValue.parses r)) →
      (∀ r, props.levels ≠ some (PropValue.parses r)) →
        building_height_meters props = 10) ∧
    building_height_meters ⟨none, none⟩ = 10 ∧
    building_height_meters ⟨none, some (PropValue.parses 15)⟩ = 45 ∧
    building_height_meters ⟨some (PropValue.parses (25 / 2)), none⟩ =
      25 / 2 := by
  refine ⟨?_, ?_, ?_, rfl, ?_, rfl⟩
  · intro props q h
    unfold building_height_meters
    rw [h]
  · intro props q hh hl
    cases hhh : props.height with
    | none => unfold building_height_meters; rw [hhh, hl]
    | some v =>
      cases v with
      | parses r => exact absurd hhh (hh r)
      | fails => unfold building_height_meters; rw [hhh, hl]
  · intro props hh hl
    cases hhh : props.height with
    | none =>
      cases hll : props.levels with
      | none => unfold building_height_meters; rw [hhh, hll]
      | some v =>
        cases v with
        | parses r => exact absurd hll (hl r)
        | fails => unfold building_height_meters; rw [hhh, hll]
    | some v =>
      cases v with
      | parses r => exact absurd hhh (hh r)
      | fails =>
        cases hll : props.levels with
        | none => unfold building_height_meters; rw [hhh, hll]
        | some w =>
          cases w with
          | parses r => exact absurd hll (hl r)
          | fails => unfold building_height_meters; rw [hhh, hll]
  · exact of_decide_eq_true (by with_unfolding_all rfl)

/-- C1 witness: the height tier applied at the concrete map with
height 25/2. -/
theorem C1_height_tiers_witness :
    building_height_meters ⟨some (PropValue.parses (25 / 2)), none⟩ =
      25 / 2 :=
  C1_height_tiers.1 ⟨some (PropValue.parses (25 / 2)), none⟩ (25 / 2) rfl

/-- C2: throughout the merge loop of `geojson_to_extruded_mesh`, the
running vertex offset equals the initial offset plus the sum of the vertex
counts of all merged local meshes, the vertex buffer is the concatenation
of the local vertex buffers, and every merged triangle is the corresponding
local triangle shifted by the offset in effect before that feature's
vertices were appended (`shiftedJoin`).  Concretely, two unit-square
features yield 16 vertices and 24 triangles, and the 12 triangles of the
second feature are exactly its local triangles shifted by 8. -/
theorem C2_merge_offsets :
    (∀ (lat lon mlon : ℚ) (feats : List Feature) (av : List Vertex)
        (ats : List Tri) (off : ℕ),
      assemble lat lon mlon feats av ats off =
        (av ++ (feats.map (fun f => (feature_mesh lat lon mlon f).1)).flatten,
         ats ++ shiftedJoin off (feats.map (feature_mesh lat lon mlon)),
         off + (feats.map
            (fun f => (feature_mesh lat lon mlon f).1.length)).sum)) ∧
    (feature_mesh 0 0 1 sqFeature).1.length = 8 ∧
    (feature_mesh 0 0 1 sqFeature).2.length = 12 ∧
    (geojson_to_extruded_mesh 0 0 1 [sqFeature, sqFeature]).1.length = 16 ∧
    (geojson_to_extruded_mesh 0 0 1 [sqFeature, sqFeature]).2.length = 24 ∧
    (geojson_to_extruded_mesh 0 0 1 [sqFeature, sqFeature]).2.drop 12 =
      ((feature_mesh 0 0 1 sqFeature).2).map (shiftTri 8) := by
  refine ⟨assemble_eq, ?_⟩
  exact of_decide_eq_true (by with_unfolding_all rfl)

/-- C3: on every strictly convex CCW polygon with n ≥ 3 vertices,
`triangulate_polygon` returns exactly n − 2 index triples, all indices
referencing the original point sequence, and the emitted triangles'
unsigned areas sum to the polygon's unsigned area. -/
theorem C3_convex_triangulation (points : List Point)
    (H : StrictlyConvex points) (h3 : 3 ≤ points.length) :
    (triangulate_polygon points).length = points.length - 2 ∧
    (∀ t ∈ triangulate_polygon points,
      t.1 < points.length ∧ t.2.1 < points.length ∧ t.2.2 < points.length) ∧
    ((triangulate_polygon points).map (triAreaAbs points)).sum =
      polyAreaAbs points := by
  refine ⟨?_, ?_, triangulate_convex_area H h3⟩
  · rw [triangulate_fan H h3]
    simp
  · intro t ht
    exact (triangulate_mem ht).2

/-- C3 witness: the unit square is strictly convex and triangulates into
4 − 2 = 2 triangles of total area 1. -/
theorem C3_convex_triangulation_witness :
    StrictlyConvex unitSquare ∧
    ((triangulate_polygon unitSquare).length = unitSquare.length - 2 ∧
    (∀ t ∈ triangulate_polygon unitSquare,
      t.1 < unitSquare.length ∧ t.2.1 < unitSquare.length ∧
        t.2.2 < unitSquare.length) ∧
    ((triangulate_polygon unitSquare).map (triAreaAbs unitSquare)).sum =
      polyAreaAbs unitSquare) := by
  have hsc : StrictlyConvex unitSquare :=
    of_decide_eq_true (by with_unfolding_all rfl)
  exact ⟨hsc, C3_convex_triangulation unitSquare hsc (by decide)⟩

/-- C4: on a normalized footprint (n ≥ 3 points, no duplicated closing
vertex, non-positive winding accumulator), `extrude_footprint` produces the
n bottom-ring vertices at y = 0 followed by the n top-ring vertices at
y = height, each sharing the footprint's (x, z); hence 2n vertices, and
2·(n − 2) + 2n triangles when the roof triangulation fully consumes the
polygon.  Concretely, the unit square at height 5 gives exactly the 8
listed vertices (bottom ring at y = 0, top ring at y = 5) and 12
triangles. -/
theorem C4_extrude_structure :
    (∀ (pts : List Point) (h : ℚ), 3 ≤ pts.length →
      pts.head? ≠ pts.getLast? → ¬ shoelace pts > 0 →
      ((extrude_footprint pts h).1 =
          pts.map (fun p => (p.1, (0 : ℚ), p.2)) ++
            pts.map (fun p => (p.1, h, p.2)) ∧
        (extrude_footprint pts h).1.length = 2 * pts.length ∧
        ((triangulate_polygon pts).length = pts.length - 2 →
          (extrude_footprint pts h).2.length =
            2 * (pts.length - 2) + 2 * pts.length))) ∧
    (extrude_footprint unitSquare 5).1 =
      [(0, 0, 0), (1, 0, 0), (1, 0, 1), (0, 0, 1),
       (0, 5, 0), (1, 5, 0), (1, 5, 1), (0, 5, 1)] ∧
    (extrude_footprint unitSquare 5).1.length = 8 ∧
    (extrude_footprint unitSquare 5).2.length = 12 := by
  refine ⟨?_, ?_⟩
  · intro pts h h3 hdup hccw
    obtain ⟨hv, htlen⟩ := extrude_normalized h3 hdup hccw
    refine ⟨hv, ?_, ?_⟩
    · rw [hv]
      simp only [List.length_append, List.length_map]
      omega
    · intro hfull
      rw [htlen, hfull]
  · exact of_decide_eq_true (by with_unfolding_all rfl)

/-- C4 witness: the general structure theorem applied to the unit square
with height 7, all hypotheses discharged concretely. -/
theorem C4_extrude_structure_witness :
    3 ≤ unitSquare.length ∧ unitSquare.head? ≠ unitSquare.getLast? ∧
    ¬ shoelace unitSquare > 0 ∧
    (triangulate_polygon unitSquare).length = unitSquare.length - 2 ∧
    (extrude_footprint unitSquare 7).1.length = 2 * unitSquare.length ∧
    (extrude_footprint unitSquare 7).2.length =
      2 * (unitSquare.length - 2) + 2 * unitSquare.length := by
  have h1 : 3 ≤ unitSquare.length := by decide
  have h2 : unitSquare.head? ≠ unitSquare.getLast? :=
    of_decide_eq_true (by with_unfolding_all rfl)
  have h3 : ¬ shoelace unitSquare > 0 :=
    of_decide_eq_true (by with_unfolding_all rfl)
  have h4 : (triangulate_polygon unitSquare).length = unitSquare.length - 2 :=
    of_decide_eq_true (by with_unfolding_all rfl)
  obtain ⟨hv, hl, hc⟩ := C4_extrude_structure.1 unitSquare 7 h1 h2 h3
  exact ⟨h1, h2, h3, h4, hl, hc h4⟩

/-- C5 counterexample: for the property map with height entry parsing to 0
(`{"height": 0}`), `_building_height_meters` returns 0, which is not
strictly positive — refuting the claim that the returned value is always
strictly positive. -/
theorem C5_counterexample :
    building_height_meters ⟨some (PropValue.parses 0), none⟩ = 0 ∧
    ¬ (0 < building_height_meters ⟨some (PropValue.parses 0), none⟩) := by
  constructor
  · rfl
  · rw [show building_height_meters ⟨some (PropValue.parses 0), none⟩ = 0
      from rfl]
    norm_num

/-- C5 (amended): `_building_height_meters` is total (never raises, by
construction of the embedding), and its result is strictly positive
whenever every value the height/levels entries successfully parse to is
strictly positive; in particular the fallback 10.0 is strictly positive. -/
theorem C5_height_safety (props : PropertyMap)
    (hh : ∀ r, props.height = some (PropValue.parses r) → 0 < r)
    (hl : ∀ r, props.levels = some (PropValue.parses r) → 0 < r) :
    0 < building_height_meters props := by
  cases hhh : props.height with
  | none =>
    cases hll : props.levels with
    | none => simp only [building_height_meters, hhh, hll]; norm_num
    | some v =>
      cases v with
      | parses q =>
        simp only [building_height_meters, hhh, hll]
        have := hl q hll
        linarith
      | fails => simp only [building_height_meters, hhh, hll]; norm_num
  | some v =>
    cases v with
    | parses q =>
      simp only [building_height_meters, hhh]
      exact hh q hhh
    | fails =>
      cases hll : props.levels with
      | none => simp only [building_height_meters, hhh, hll]; norm_num
      | some w =>
        cases w with
        | parses q =>
          simp only [building_height_meters, hhh, hll]
          have := hl q hll
          linarith
        | fails => simp only [building_height_meters, hhh, hll]; norm_num

/-- C5 witness: the amended safety theorem at the map with levels 15. -/
theorem C5_height_safety_witness :
    0 < building_height_meters ⟨none, some (PropValue.parses 15)⟩ :=
  C5_height_safety ⟨none, some (PropValue.parses 15)⟩
    (fun r h => absurd h (by simp))
    (fun r h => by
      simp only [Option.some.injEq, PropValue.parses.injEq] at h
      rw [← h]
      norm_num)

/-- C6 counterexample: the collinear sequence [(0,0),(1,0),(2,0)] has
non-positive winding accumulator (so it counts as CCW under the claim's
definition), yet normalizing its reverse does not return the original
sequence — refuting the claim's third part. -/
theorem C6_counterexample :
    shoelace collinear3 ≤ 0 ∧
    ensure_ccw collinear3.reverse ≠ collinear3 :=
  of_decide_eq_true (by with_unfolding_all rfl)

/-- C6 (amended): `ensure_ccw` is idempotent on every point sequence;
normalizing an already-CCW sequence (non-positive accumulator) returns it
unchanged; and normalizing the reverse of a strictly CCW sequence
(strictly negative accumulator) returns the original sequence. -/
theorem C6_normalizer_idempotent (l : List Point) :
    ensure_ccw (ensure_ccw l) = ensure_ccw l ∧
    (¬ shoelace l > 0 → ensure_ccw l = l) ∧
    (shoelace l < 0 → ensure_ccw l.reverse = l) := by
  exact ⟨ensure_ccw_idem l, ensure_ccw_of_not_pos,
    ensure_ccw_reverse_of_neg⟩

/-- C6 witness: the unit square has strictly negative accumulator, and
normalizing its reverse restores it. -/
theorem C6_normalizer_idempotent_witness :
    shoelace unitSquare < 0 ∧
    ensure_ccw unitSquare.reverse = unitSquare := by
  have h : shoelace unitSquare < 0 :=
    of_decide_eq_true (by with_unfolding_all rfl)
  exact ⟨h, (C6_normalizer_idempotent unitSquare).2.2 h⟩

/-- C7: triangulation is total (`triangulate_polygon` is a function in the
embedding, so it never raises); when a full scan of the live list finds no
ear, the loop stops and contributes nothing further, so the triangles
emitted so far are returned as an ordinary partial result; every
successful scan contributes exactly its ear triangle.  Concretely, three
collinear points yield the empty list, and a self-intersecting bowtie
yields the partial (one-triangle) result. -/
theorem C7_partial_result :
    (∀ (points : List Point) (indices : List ℕ) (fuel : ℕ),
      2 < indices.length → findEar points indices = none →
        triLoop points (fuel + 1) indices = []) ∧
    (∀ (points : List Point) (indices : List ℕ) (fuel i : ℕ) (t : Tri),
      2 < indices.length → findEar points indices = some (i, t) →
        triLoop points (fuel + 1) indices =
          t :: triLoop points fuel (indices.eraseIdx i)) ∧
    findEar collinear3 [0, 1, 2] = none ∧
    triangulate_polygon collinear3 = [] ∧
    triangulate_polygon bowtie = [(3, 0, 1)] := by
  refine ⟨?_, ?_, ?_⟩
  · intro points indices fuel hm h
    exact triLoop_stuck fuel hm h
  · intro points indices fuel i t hm h
    exact triLoop_step fuel hm h
  · exact of_decide_eq_true (by with_unfolding_all rfl)

/-- C7 witness: the early-stop clause applied to the collinear input. -/
theorem C7_partial_result_witness :
    2 < ([0, 1, 2] : List ℕ).length ∧
    findEar collinear3 [0, 1, 2] = none ∧
    triLoop collinear3 1 [0, 1, 2] = [] := by
  have hfe : findEar collinear3 [0, 1, 2] = none :=
    of_decide_eq_true (by with_unfolding_all rfl)
  exact ⟨by decide, hfe, C7_partial_result.1 collinear3 [0, 1, 2] 0
    (by decide) hfe⟩

/-- C8 counterexample: a Polygon feature with two rings — not a single
polygonal ring — is not skipped by `geojson_to_extruded_mesh`: the code
processes its first ring, so the feature contributes a full 8-vertex,
12-triangle solid and advances the vertex offset to 8 instead of
contributing nothing. -/
theorem C8_counterexample :
    twoRingFeature.geometry.map (fun g => (g.type, g.coordinates.length)) =
      some ("Polygon", 2) ∧
    feature_mesh 0 0 1 twoRingFeature ≠ ([], []) ∧
    (feature_mesh 0 0 1 twoRingFeature).1.length = 8 ∧
    (feature_mesh 0 0 1 twoRingFeature).2.length = 12 ∧
    (assemble 0 0 1 [twoRingFeature] [] [] 0).2.2 = 8 := by
  refine ⟨rfl, ?_⟩
  exact of_decide_eq_true (by with_unfolding_all rfl)

/-- C8 (amended): a feature whose geometry is missing or not of type
"Polygon", whose coordinates hold no rings, or whose *first* ring's
projected footprint has fewer than 3 usable coordinate pairs (including a
ring that falls below 3 points after removal of a duplicated closing
vertex), yields the empty local mesh, and the merge loop state (vertices,
triangles, offset) passes over it unchanged; the run never aborts (the
loop is a total function).  A Polygon feature with additional rings is not
skipped: the engine reads only the first ring and ignores the rest. -/
theorem C8_degenerate_skipped :
    (∀ (lat lon mlon : ℚ) (f : Feature),
      (f.geometry = none ∨ ∃ g, f.geometry = some g ∧
        (g.type ≠ "Polygon" ∨ g.coordinates = [] ∨
          ∃ r rs, g.coordinates = r :: rs ∧
            ((projected_footprint lat lon mlon r).length < 3 ∨
             (drop_closing (projected_footprint lat lon mlon r)).length
               < 3))) →
      feature_mesh lat lon mlon f = ([], []) ∧
      ∀ (rest : List Feature) (av : List Vertex) (ats : List Tri) (off : ℕ),
        assemble lat lon mlon (f :: rest) av ats off =
          assemble lat lon mlon rest av ats off) ∧
    (∀ (lat lon mlon : ℚ) (gtype : String) (r : List (List ℚ))
        (rs : List (List (List ℚ))) (props : PropertyMap),
      feature_mesh lat lon mlon ⟨some ⟨gtype, r :: rs⟩, props⟩ =
        feature_mesh lat lon mlon ⟨some ⟨gtype, [r]⟩, props⟩) := by
  constructor
  · intro lat lon mlon f h
    have h1 := feature_mesh_skip h
    exact ⟨h1, fun rest av ats off => assemble_skip h1 rest av ats off⟩
  · intro lat lon mlon gtype r rs props
    rfl

/-- C8 witness: the skip clause applied to the concrete feature whose
ring falls to 2 points after closing-vertex removal. -/
theorem C8_degenerate_skipped_witness :
    feature_mesh 0 0 1 degFeature = ([], []) ∧
    assemble 0 0 1 [degFeature] [] [] 0 = assemble 0 0 1 [] [] [] 0 := by
  have hd : degFeature.geometry = none ∨ ∃ g, degFeature.geometry = some g ∧
      (g.type ≠ "Polygon" ∨ g.coordinates = [] ∨
        ∃ r rs, g.coordinates = r :: rs ∧
          ((projected_footprint 0 0 1 r).length < 3 ∨
           (drop_closing (projected_footprint 0 0 1 r)).length < 3)) :=
    Or.inr ⟨⟨"Polygon", [[[0, 0], [1, (1 : ℚ) / 111320], [0, 0]]]⟩, rfl,
      Or.inr (Or.inr ⟨[[0, 0], [1, (1 : ℚ) / 111320], [0, 0]], [], rfl,
        Or.inr (of_decide_eq_true (by with_unfolding_all rfl))⟩)⟩
  obtain ⟨h1, h2⟩ := C8_degenerate_skipped.1 0 0 1 degFeature hd
  exact ⟨h1, h2 [] [] [] 0⟩

/-- C9: every triangle of a local mesh from `extrude_footprint` and of the
combined mesh from `geojson_to_extruded_mesh` has three pairwise-distinct
indices, each strictly below the length of its owning vertex buffer
(indices are naturals, hence non-negative). -/
theorem C9_triangle_validity :
    (∀ (pts : List Point) (h : ℚ) (t : Tri),
      t ∈ (extrude_footprint pts h).2 →
        (t.1 ≠ t.2.1 ∧ t.1 ≠ t.2.2 ∧ t.2.1 ≠ t.2.2) ∧
          t.1 < (extrude_footprint pts h).1.length ∧
          t.2.1 < (extrude_footprint pts h).1.length ∧
          t.2.2 < (extrude_footprint pts h).1.length) ∧
    (∀ (lat lon mlon : ℚ) (feats : List Feature) (t : Tri),
      t ∈ (geojson_to_extruded_mesh lat lon mlon feats).2 →
        (t.1 ≠ t.2.1 ∧ t.1 ≠ t.2.2 ∧ t.2.1 ≠ t.2.2) ∧
          t.1 < (geojson_to_extruded_mesh lat lon mlon feats).1.length ∧
          t.2.1 < (geojson_to_extruded_mesh lat lon mlon feats).1.length ∧
          t.2.2 < (geojson_to_extruded_mesh lat lon mlon feats).1.length) := by
  refine ⟨fun pts h t ht => extrude_mem ht, ?_⟩
  intro lat lon mlon feats t ht
  exact assemble_mem lat lon mlon feats [] [] 0 rfl
    (fun t0 ht0 => absurd ht0 (List.not_mem_nil t0)) t ht

/-- C9 witness: the validity theorem at the first roof triangle of the
extruded unit square. -/
theorem C9_triangle_validity_witness :
    ((7, 4, 5) : Tri) ∈ (extrude_footprint unitSquare 5).2 ∧
    ((7 : ℕ) ≠ 4 ∧ (7 : ℕ) ≠ 5 ∧ (4 : ℕ) ≠ 5) ∧
    7 < (extrude_footprint unitSquare 5).1.length ∧
    4 < (extrude_footprint unitSquare 5).1.length ∧
    5 < (extrude_footprint unitSquare 5).1.length := by
  have hm : ((7, 4, 5) : Tri) ∈ (extrude_footprint unitSquare 5).2 :=
    of_decide_eq_true (by with_unfolding_all rfl)
  exact ⟨hm, C9_triangle_validity.1 unitSquare 5 (7, 4, 5) hm⟩

/-- C10: the ear-clipping loop terminates within `len(points)` iterations
on arbitrary input: the result of the loop is unchanged by any fuel of at
least n − 2 (each continuing iteration removes exactly one live index),
and the number of emitted triangles is at most n − 2 (0 when n < 3). -/
theorem C10_terminates_bounded :
    (∀ (points : List Point) (fuel : ℕ), points.length ≤ fuel + 2 →
      triLoop points fuel (List.range points.length) =
        triangulate_polygon points) ∧
    (∀ points : List Point,
      (triangulate_polygon points).length ≤ points.length - 2) := by
  constructor
  · intro points fuel hf
    unfold triangulate_polygon
    exact triLoop_fuel_congr points fuel points.length
      (List.range points.length) (by simpa using hf) (by simp)
  · intro points
    have h := triLoop_length_le points points.length
      (List.range points.length)
    simpa using h

/-- C10 witness: fuel 2 already suffices for the 4-point unit square. -/
theorem C10_terminates_bounded_witness :
    unitSquare.length ≤ 2 + 2 ∧
    triLoop unitSquare 2 (List.range unitSquare.length) =
      triangulate_polygon unitSquare := by
  have h1 : unitSquare.length ≤ 2 + 2 := by decide
  exact ⟨h1, C10_terminates_bounded.1 unitSquare 2 h1⟩

end Geojsonbldg
